import Mathlib

/-!
Verification of the gap-filling / formatting transform of the price-export
repository (`src/converter.py`, with the parameterized variant in
`src/price_data_parser.py`).

The shallow embedding models:
  * a CSV cell value (`CellValue`): a number (exact rational), a pandas null
    (`NaN`/`None`), or a string;
  * an input row restricted to the `CSV_COLUMNS` (`Bar`), with `time` already
    put through `pd.to_datetime(..., errors=.coerce.)` (`none` = `NaT`);
  * the transform `convert_csv_to_excel_ny_time` (converter.py lines 17-147):
    drop rows with unparseable timestamps, abort when empty, sort by instant,
    build the `pd.date_range` grid from min to max at the configured cadence,
    reindex (pandas raises on a duplicate index, modelled as
    `ConvErr.duplicateAxis`), fill missing cells with the "GAP" sentinel,
    render Date/Time strings, and format the price columns.

Timestamps are modelled as integer epoch seconds.  `tz_convert` keeps the
underlying instant and only changes the wall-clock rendering, and a fixed
`15T` frequency advances in absolute time, so sorting, `min`/`max`,
`date_range` and `reindex` all act on instants; the timezone enters only in
`strftime`.  The timezone is therefore a parameter `tz : Int → Int` giving
the UTC offset in seconds at a given instant (the model of the pytz
`America/New_York` rules; pytz itself is an external library).

Python's `f"{v:.3f}"` formatting of a float performs correct rounding of the
exact value with ties to even; prices are modelled as exact rationals and the
formatter as round-half-to-even at 3 fractional digits.  Python's `float(s)`
parsing is modelled for plain decimal literals (optional sign, digits,
optional fractional part); exponent forms, embedded underscores, padding
whitespace and `inf`/`nan` literals do not occur in this data.
-/

/-- A single cell value as pandas holds it: a number, a null (`NaN`/`None`),
or a string. -/
inductive CellValue where
  | num (q : ℚ)
  | nan
  | str (s : String)
deriving DecidableEq

/-- One input row restricted to `CSV_COLUMNS = [time, open, high, low, close]`
(converter.py line 37), after `pd.to_datetime(..., unit=s, utc=True,
errors=.coerce.)` on the `time` column (line 41): `time = none` models `NaT`
(an unparseable timestamp). -/
structure Bar where
  time : Option Int
  «open» : CellValue
  high : CellValue
  low : CellValue
  close : CellValue
deriving DecidableEq

/-- A row whose timestamp survived normalization: `t` is the instant as epoch
seconds. -/
structure NBar where
  t : Int
  «open» : CellValue
  high : CellValue
  low : CellValue
  close : CellValue
deriving DecidableEq

/-- `dropna(subset=[time_dt_utc])` (converter.py line 43): keep exactly the
rows whose timestamp parsed. -/
def normalizeBars (input : List Bar) : List NBar :=
  input.filterMap fun b => b.time.map fun t => ⟨t, b.«open», b.high, b.low, b.close⟩

/-- Ordering of rows by their (timezone-converted) instant, used by
`sort_values(by=time_dt_ny)` (converter.py line 58). -/
def nbarLE (a b : NBar) : Prop := a.t ≤ b.t

instance : DecidableRel nbarLE := fun a b => inferInstanceAs (Decidable (a.t ≤ b.t))

/-- `df_processed.sort_values(by=time_dt_ny)` (converter.py line 58). -/
def sortBars (l : List NBar) : List NBar := l.insertionSort nbarLE

/-- `df_processed.index.min()` (converter.py line 66): the least instant of a
nonempty table (`0` is a dead default for the empty case, which the transform
rules out before reaching this point). -/
def minTime : List NBar → Int
  | [] => 0
  | b :: bs => bs.foldl (fun m x => min m x.t) b.t

/-- `df_processed.index.max()` (converter.py line 67). -/
def maxTime : List NBar → Int
  | [] => 0
  | b :: bs => bs.foldl (fun m x => max m x.t) b.t

/-- `pd.date_range(start=min_time, end=max_time, freq=gap_freq)` (converter.py
line 70): the instants `min, min+step, min+2*step, ...` up to the last one
that is `≤ max`; `step` is the cadence in seconds. -/
def gridSlots (step minT maxT : Int) : List Int :=
  (List.range (((maxT - minT) / step).toNat + 1)).map fun i : Nat => minT + step * (i : Int)

/-- `df_reindexed[col].fillna("GAP")` on one cell (converter.py line 80): every
null becomes the `"GAP"` sentinel string, whether the null came from the
reindex (a missing slot) or from a null price in the original row. -/
def fillGap (v : CellValue) : CellValue :=
  match v with
  | .nan => .str "GAP"
  | v => v

/-! ### Decimal digit strings

The host language's integer-to-decimal rendering, embedded as a fuel-based
(hence kernel-computable) digit list, little-endian like `Nat.digits`. -/

/-- Little-endian base-10 digits of `n`, with explicit fuel (`[]` for `0`). -/
def natDigitsRev (fuel n : Nat) : List Nat :=
  match fuel with
  | 0 => []
  | f + 1 => if n = 0 then [] else n % 10 :: natDigitsRev f (n / 10)

/-- Little-endian base-10 digits of `n` (`[]` for `0`). -/
def natDigits (n : Nat) : List Nat := natDigitsRev n n

/-- The decimal rendering of a natural number as a character list, most
significant digit first (`"0"` for `0`): the model of the host `str`/`format`
integer rendering. -/
def natDigitChars (n : Nat) : List Char :=
  if n = 0 then ['0'] else ((natDigits n).map Nat.digitChar).reverse

/-- Zero-pad a digit string on the left to width 2 (`strftime` `%d`, `%m`,
`%H`, `%M`, `%S`). -/
def padLeft2 (l : List Char) : List Char := List.replicate (2 - l.length) '0' ++ l

/-- Zero-pad a digit string on the left to width 3 (the three fractional
digits of `f"{v:.3f}"`). -/
def padLeft3 (l : List Char) : List Char := List.replicate (3 - l.length) '0' ++ l

/-! ### Price formatting (`format_price_or_gap`, converter.py lines 125-138) -/

/-- Round-half-to-even of a rational to an integer: the rounding performed by
Python's fixed-point float formatting on the exact value. -/
def roundHalfEven (x : ℚ) : Int :=
  let f := Rat.floor x
  let r := x - (f : ℚ)
  if r < mkRat 1 2 then f
  else if mkRat 1 2 < r then f + 1
  else if f % 2 = 0 then f else f + 1

/-- `f"{value:.3f}".replace(".", ",")` on an exact rational: round `1000 * v`
half-to-even, then print sign, integer part, a comma, and exactly three
fractional digits. -/
def formatFixed3 (q : ℚ) : String :=
  let n := roundHalfEven (1000 * q)
  String.mk ((if q < 0 then ['-'] else []) ++ natDigitChars (n.natAbs / 1000)
    ++ [','] ++ padLeft3 (natDigitChars (n.natAbs % 1000)))

/-- Is this character one of `0`-`9`?  (Same test as `Char.isDigit`, named
locally so the parser below is self-contained.) -/
def isDigitChar (c : Char) : Bool := '0' ≤ c && c ≤ '9'

/-- Numeric value of a digit string read left to right (junk on non-digits;
only applied underneath an all-digits guard). -/
def digitsVal (l : List Char) : Nat := l.foldl (fun a c => 10 * a + (c.toNat - 48)) 0

/-- Python `float(s)` on a plain decimal literal, unsigned part: digits, an
optional `.`, optional fractional digits; at least one digit overall.
Exponents, underscores, whitespace and `inf`/`nan` are outside the modelled
input domain (they do not occur in this pipeline's data). -/
def parseUnsigned (l : List Char) : Option ℚ :=
  let ip := l.takeWhile isDigitChar
  match l.dropWhile isDigitChar with
  | [] => if ip.isEmpty then none else some (digitsVal ip)
  | c :: frac =>
    if c = '.' && frac.all isDigitChar && !(ip.isEmpty && frac.isEmpty) then
      some ((digitsVal ip : ℚ) + mkRat (digitsVal frac) (10 ^ frac.length))
    else none

/-- Python `float(s)` on a plain decimal literal, with optional sign. -/
def parseDec (s : String) : Option ℚ :=
  match s.toList with
  | [] => none
  | c :: rest =>
    if c = '-' then (parseUnsigned rest).map fun q => -q
    else if c = '+' then parseUnsigned rest
    else parseUnsigned (c :: rest)

/-- `format_price_or_gap` (converter.py lines 125-138): the `"GAP"` sentinel
passes through; numbers are formatted to three fractional digits with a comma
separator; other strings are formatted if they parse as a number and passed
through unchanged otherwise; nulls (`NaN`/`None`) become the empty string. -/
def format_price_or_gap (value : CellValue) : String :=
  match value with
  | .str s =>
    if s = "GAP" then "GAP"
    else
      match parseDec s with
      | some q => formatFixed3 q
      | none => s
  | .num q => formatFixed3 q
  | .nan => ""

/-- The reverse direction of the spec's round-trip property: put the decimal
point back (comma to dot) and re-parse as a decimal. -/
def commaToDot (s : String) : String :=
  String.mk (s.toList.map fun c => if c = ',' then '.' else c)

/-- Format-then-parse composition used by the round-trip property. -/
def parseBack (s : String) : Option ℚ := parseDec (commaToDot s)

/-! ### Date and Time rendering (`strftime`, converter.py lines 100-101) -/

/-- Civil date `(year, month, day)` from a day count relative to 1970-01-01
(the proleptic Gregorian calendar, as used by `strftime`). -/
def civilFromDays (z : Int) : Int × Int × Int :=
  let era := (z + 719468) / 146097
  let doe := (z + 719468) % 146097
  let yoe := (doe - doe/ 1460 + doe/ 36524 - doe/ 146096)/ 365
  let doy := doe - (365 * yoe + yoe/ 4 - yoe/ 100)
  let mp := (5 * doy + 2)/ 153
  let d := doy - (153 * mp + 2)/ 5 + 1
  let m := mp + (if mp < 10 then 3 else -9)
  (yoe + era * 400 + (if m ≤ 2 then 1 else 0), m, d)

/-- Two-digit zero-padded rendering of a (small, nonnegative) calendar field. -/
def pad2 (n : Int) : List Char := padLeft2 (natDigitChars n.toNat)

/-- The civil date of instant `t` (epoch seconds, UTC) under the offset
function `tz`: local seconds are `t + tz t`. -/
def localCivil (tz : Int → Int) (t : Int) : Int × Int × Int :=
  civilFromDays ((t + tz t)/ 86400)

/-- `time_dt_ny.dt.strftime("%d/%m/%Y")` (converter.py line 100). -/
def dateString (tz : Int → Int) (t : Int) : String :=
  let c := localCivil tz t
  String.mk (pad2 c.2.2 ++ ['/'] ++ pad2 c.2.1 ++ ['/'] ++ natDigitChars c.1.toNat)

/-- `time_dt_ny.dt.strftime("%H:%M:%S")` (converter.py line 101). -/
def timeString (tz : Int → Int) (t : Int) : String :=
  let sod := (t + tz t)% 86400
  String.mk (pad2 (sod/ 3600) ++ [':'] ++ pad2 ((sod% 3600)/ 60)
    ++ [':'] ++ pad2 (sod% 60))

/-! ### The transform -/

/-- One output row.  `slot` is the row's grid instant (the `time_dt_ny` index
value the Date/Time strings are derived from; the Excel sink then writes only
the six string columns). -/
structure Row where
  slot : Int
  Date : String
  Time : String
  OPEN : String
  HIGH : String
  LOW : String
  CLOSE : String
deriving DecidableEq

/-- The ways a run can stop without producing an output file: the
empty-after-normalization abort (converter.py lines 44-46) and the
`ValueError` pandas raises when `reindex` is applied to an index with
duplicate labels (caught by the top-level handler; the run aborts). -/
inductive ConvErr where
  | emptyAfterNormalization
  | duplicateAxis
deriving DecidableEq

/-- Build the output row for grid slot `s`: the `reindex` row lookup (exact
instant match), `fillna("GAP")`, Date/Time rendering and price formatting,
composed per row. -/
def mkRow (tz : Int → Int) (sorted : List NBar) (s : Int) : Row :=
  let found := sorted.find? fun b => b.t = s
  let cell := fun (f : NBar → CellValue) =>
    match found with
    | some b => f b
    | none => CellValue.nan
  { slot := s
    Date := dateString tz s
    Time := timeString tz s
    OPEN := format_price_or_gap (fillGap (cell NBar.«open»))
    HIGH := format_price_or_gap (fillGap (cell NBar.high))
    LOW := format_price_or_gap (fillGap (cell NBar.low))
    CLOSE := format_price_or_gap (fillGap (cell NBar.close)) }

/-- `convert_csv_to_excel_ny_time` (converter.py lines 17-147), from the
normalized rows to the formatted output rows.  `tz` is the timezone offset
function (America/New_York), `gap_interval_minutes` the cadence
(`GAP_INTERVAL_MINUTES = 15`).  `.error e` models a run that stops and
produces no output file. -/
def convert_csv_to_excel_ny_time (tz : Int → Int) (gap_interval_minutes : Int)
    (input : List Bar) : Except ConvErr (List Row) :=
  match normalizeBars input with
  | [] => .error .emptyAfterNormalization
  | l =>
    let sorted := sortBars l
    let step := 60 * gap_interval_minutes
    if (sorted.map NBar.t).Nodup then
      .ok ((gridSlots step (minTime sorted) (maxTime sorted)).map (mkRow tz sorted))
    else
      .error .duplicateAxis

/-! ### A concrete timezone offset

Modelled from the spec: the `pytz` `America/New_York` rules ("conversion must
use full IANA timezone rules"); pytz is an external library, not part of
`src/`.  The model implements the post-2007 United States DST rule (EDT from
the second Sunday of March, 2:00 EST, to the first Sunday of November, 2:00
EDT; EST otherwise), which is the IANA rule for every instant this pipeline
processes (a 59-day window of recent data).  Only witnesses and
counterexamples instantiate it; the theorems hold for every offset
function. -/

/-- Day count from civil date (inverse of `civilFromDays`). -/
def daysFromCivil (y m d : Int) : Int :=
  let yy := y - (if m ≤ 2 then 1 else 0)
  let era := yy/ 400
  let yoe := yy - era * 400
  let doy := (153 * (m + (if m > 2 then -3 else 9)) + 2)/ 5 + d - 1
  let doe := yoe * 365 + yoe/ 4 - yoe/ 100 + doy
  era * 146097 + doe - 719468

/-- Epoch day of the first Sunday on or after the given civil date. -/
def firstSundayOnOrAfter (y m d : Int) : Int :=
  let z := daysFromCivil y m d
  z + (7 - (z + 4)% 7)% 7

/-- Modelled from the spec: the `pytz` `America/New_York` offset (seconds east
of UTC) at UTC instant `t`, under the post-2007 US DST rule. -/
def nyOffset (t : Int) : Int :=
  let y := (civilFromDays ((t - 18000)/ 86400)).1
  let dstStart := firstSundayOnOrAfter y 3 8 * 86400 + 7 * 3600
  let dstEnd := firstSundayOnOrAfter y 11 1 * 86400 + 6 * 3600
  if dstStart ≤ t ∧ t < dstEnd then -14400 else -18000

/-! ### Column assembly (price_data_parser.py lines 158-187)

The tail of the parameterized variant `convert_csv_to_excel_ny_time` in
`src/price_data_parser.py`: rename the OHLC columns to uppercase, synthesize
any of the six final columns that is missing as a null-filled column, select
the six columns in order (a `KeyError`, modelled as `none`, if one were still
missing), and format the price columns.  A dataframe row is modelled as an
association list from column name to cell value, in column order. -/

/-- A dataframe row: column names with their cell values, in column order. -/
abbrev Rec : Type := List (String × CellValue)

/-- `df_processed.rename(columns={open: OPEN, ...})` (price_data_parser.py
lines 158-160). -/
def renameOHLC (r : Rec) : Rec :=
  r.map fun p =>
    (if p.1 = "open" then "OPEN"
     else if p.1 = "high" then "HIGH"
     else if p.1 = "low" then "LOW"
     else if p.1 = "close" then "CLOSE"
     else p.1, p.2)

/-- `for col in final_excel_columns: if col not in df_processed.columns:
df_processed[col] = None` (price_data_parser.py lines 162-164): append each
missing column, filled with nulls. -/
def addMissingFinal : List String → Rec → Rec
  | [], r => r
  | c :: cs, r =>
    addMissingFinal cs (if (r.lookup c).isSome then r else r ++ [(c, CellValue.nan)])

/-- `df_processed[final_excel_columns]` (price_data_parser.py line 166):
select the named columns in order; a missing column is a `KeyError` (`none`). -/
def selectCols (cols : List String) (r : Rec) : Option Rec :=
  cols.mapM fun c => (r.lookup c).map fun v => (c, v)

/-- `FINAL_EXCEL_ORDERED_COLUMNS` (converter.py line 15). -/
def FINAL_EXCEL_ORDERED_COLUMNS : List String :=
  ["Date", "Time", "OPEN", "HIGH", "LOW", "CLOSE"]

/-- The four price columns formatted by the output stage (converter.py
line 118). -/
def priceCols : List String := ["OPEN", "HIGH", "LOW", "CLOSE"]

/-- `output_df[col] = output_df[col].apply(format_price_or_gap)` for the price
columns (price_data_parser.py lines 169-186): format each price cell to a
string, leave the other columns alone. -/
def formatPriceCells (r : Rec) : Rec :=
  r.map fun p =>
    if p.1 ∈ priceCols then (p.1, CellValue.str (format_price_or_gap p.2)) else p

/-- The assembly stage on one row: rename, synthesize missing final columns
as null-filled, select the six output columns in order, format prices. -/
def assembleRow (r : Rec) : Option Rec :=
  (selectCols FINAL_EXCEL_ORDERED_COLUMNS
    (addMissingFinal FINAL_EXCEL_ORDERED_COLUMNS (renameOHLC r))).map formatPriceCells

instance {α : Type} [DecidableEq α] : DecidableEq (Except ConvErr α) := fun a b =>
  match a, b with
  | .ok x, .ok y => decidable_of_iff (x = y) (by simp)
  | .error x, .error y => decidable_of_iff (x = y) (by simp)
  | .ok _, .error _ => isFalse (by simp)
  | .error _, .ok _ => isFalse (by simp)

/-! ### Lemmas: decimal digit strings -/

lemma natDigitsRev_eq_digits (fuel : Nat) : ∀ n : Nat, n ≤ fuel →
    natDigitsRev fuel n = Nat.digits 10 n := by
  induction fuel with
  | zero =>
    intro n hn
    interval_cases n
    simp [natDigitsRev]
  | succ f ih =>
    intro n hn
    by_cases hz : n = 0
    · subst hz; simp [natDigitsRev]
    · rw [natDigitsRev, if_neg hz,
        Nat.digits_def' (b := 10) (by norm_num) (Nat.pos_of_ne_zero hz),
        ih (n / 10) ?_]
      have : n / 10 < n := Nat.div_lt_self (Nat.pos_of_ne_zero hz) (by norm_num)
      omega

lemma natDigits_eq_digits (n : Nat) : natDigits n = Nat.digits 10 n :=
  natDigitsRev_eq_digits n n le_rfl

lemma digitChar_toNat (d : Nat) (h : d < 10) : (Nat.digitChar d).toNat = 48 + d := by
  interval_cases d <;> rfl

lemma digitChar_isDigit (d : Nat) (h : d < 10) : isDigitChar (Nat.digitChar d) = true := by
  interval_cases d <;> rfl

lemma natDigitChars_ne_nil (n : Nat) : natDigitChars n ≠ [] := by
  unfold natDigitChars
  split
  · simp
  · next hz =>
    simp only [ne_eq, List.reverse_eq_nil_iff, List.map_eq_nil_iff, natDigits_eq_digits]
    exact Nat.digits_ne_nil_iff_ne_zero.mpr hz

lemma natDigitChars_all_digits (n : Nat) : (natDigitChars n).all isDigitChar = true := by
  unfold natDigitChars
  split
  · rfl
  · simp only [List.all_eq_true, List.mem_reverse, List.mem_map, natDigits_eq_digits]
    rintro c ⟨d, hd, rfl⟩
    exact digitChar_isDigit d (Nat.digits_lt_base (by norm_num) hd)

lemma digitsVal_append_singleton (l : List Char) (c : Char) :
    digitsVal (l ++ [c]) = 10 * digitsVal l + (c.toNat - 48) := by
  simp [digitsVal, List.foldl_append]

lemma digitsVal_natDigitChars (n : Nat) : digitsVal (natDigitChars n) = n := by
  unfold natDigitChars
  split
  · subst n; rfl
  · rw [natDigits_eq_digits]
    have key : ∀ L : List Nat, (∀ d ∈ L, d < 10) →
        digitsVal ((L.map Nat.digitChar).reverse) = Nat.ofDigits 10 L := by
      intro L
      induction L with
      | nil => intro _; rfl
      | cons d L2 ih =>
        intro hL
        have hd : d < 10 := hL d (List.mem_cons_self d L2)
        rw [List.map_cons, List.reverse_cons, digitsVal_append_singleton,
          ih (fun x hx => hL x (List.mem_cons_of_mem d hx)), digitChar_toNat d hd,
          Nat.ofDigits_cons]
        omega
    rw [key _ (fun d hd => Nat.digits_lt_base (by norm_num) hd), Nat.ofDigits_digits]

lemma digitsVal_replicate_zero_append (k : Nat) (l : List Char) :
    digitsVal (List.replicate k '0' ++ l) = digitsVal l := by
  induction k with
  | zero => rfl
  | succ m ih => simpa [List.replicate_succ, digitsVal] using ih

lemma digitsVal_padLeft3 (l : List Char) : digitsVal (padLeft3 l) = digitsVal l :=
  digitsVal_replicate_zero_append _ l

lemma padLeft3_all_digits (l : List Char) (h : l.all isDigitChar = true) :
    (padLeft3 l).all isDigitChar = true := by
  simp only [padLeft3, List.all_append, h, Bool.and_true]
  simp only [List.all_eq_true]
  intro c hc
  rw [List.eq_of_mem_replicate hc]
  rfl

lemma natDigitChars_length_le (n k : Nat) (hk : 1 ≤ k) (h : n < 10 ^ k) :
    (natDigitChars n).length ≤ k := by
  unfold natDigitChars
  split
  · simpa using hk
  · next hz =>
    simp only [List.length_reverse, List.length_map, natDigits_eq_digits]
    rw [Nat.digits_len 10 n (by norm_num) hz]
    have := (Nat.lt_pow_iff_log_lt (b := 10) (by norm_num) hz).mp h
    omega

lemma natDigitChars_length_eq (n k : Nat) (h1 : 10 ^ k ≤ n) (h2 : n < 10 ^ (k + 1)) :
    (natDigitChars n).length = k + 1 := by
  have hz : n ≠ 0 := by
    have : 0 < 10 ^ k := Nat.pos_pow_of_pos k (by norm_num)
    omega
  unfold natDigitChars
  rw [if_neg hz]
  simp only [List.length_reverse, List.length_map, natDigits_eq_digits]
  rw [Nat.digits_len 10 n (by norm_num) hz]
  have hlo := (Nat.pow_le_iff_le_log (b := 10) (by norm_num) hz).mp h1
  have hhi := (Nat.lt_pow_iff_log_lt (b := 10) (by norm_num) hz).mp h2
  omega

lemma padLeft3_length (l : List Char) (h : l.length ≤ 3) : (padLeft3 l).length = 3 := by
  simp only [padLeft3, List.length_append, List.length_replicate]
  omega

lemma padLeft2_length (l : List Char) (h : l.length ≤ 2) : (padLeft2 l).length = 2 := by
  simp only [padLeft2, List.length_append, List.length_replicate]
  omega

lemma pad2_length (n : Int) (h : n.toNat < 100) : (pad2 n).length = 2 := by
  unfold pad2
  exact padLeft2_length _ (natDigitChars_length_le _ 2 (by norm_num) (by omega))

/-! ### Lemmas: round-half-to-even -/

lemma mkRat_one_two : (mkRat 1 2 : ℚ) = 1 / 2 := by
  rw [Rat.mkRat_eq_div]
  norm_num

lemma Rat.floor_eq_intFloor (q : ℚ) : (Rat.floor q : ℤ) = ⌊q⌋ := by
  rw [Rat.floor_def, Rat.floor_def']

lemma roundHalfEven_cases (x : ℚ) :
    roundHalfEven x = ⌊x⌋ ∨ roundHalfEven x = ⌊x⌋ + 1 := by
  simp only [roundHalfEven, Rat.floor_eq_intFloor]
  split_ifs <;> simp

lemma roundHalfEven_abs_sub_le (x : ℚ) : |(roundHalfEven x : ℚ) - x| ≤ 1 / 2 := by
  have hfl : (⌊x⌋ : ℚ) ≤ x := Int.floor_le x
  have hfu : x < ⌊x⌋ + 1 := Int.lt_floor_add_one x
  simp only [roundHalfEven, Rat.floor_eq_intFloor, mkRat_one_two]
  split_ifs with h1 h2 h3
  · rw [abs_le]; constructor <;> linarith
  · push_neg at h1
    rw [abs_le]
    push_cast
    constructor <;> linarith
  all_goals
    push_neg at h1 h2
    have hr : x - (⌊x⌋ : ℚ) = 1 / 2 := le_antisymm h2 h1
    rw [abs_le]
    push_cast
    constructor <;> linarith

lemma roundHalfEven_nonneg (x : ℚ) (h : 0 ≤ x) : 0 ≤ roundHalfEven x := by
  rcases roundHalfEven_cases x with hc | hc <;> rw [hc] <;>
    have := Int.le_floor.mpr (le_trans (by norm_num) h : ((0 : ℤ) : ℚ) ≤ x) <;> omega

lemma roundHalfEven_nonpos (x : ℚ) (h : x < 0) : roundHalfEven x ≤ 0 := by
  have hfl : ⌊x⌋ < 0 := Int.floor_lt.mpr (by exact_mod_cast h)
  rcases roundHalfEven_cases x with hc | hc <;> rw [hc] <;> omega

/-! ### Lemmas: parsing back a rendered number -/

lemma takeWhile_append_middle (p : Char → Bool) (l1 : List Char) (c : Char)
    (l2 : List Char) (h1 : l1.all p = true) (hc : p c = false) :
    (l1 ++ c :: l2).takeWhile p = l1 := by
  induction l1 with
  | nil => simp [List.takeWhile_cons, hc]
  | cons a l ih =>
    simp only [List.all_cons, Bool.and_eq_true] at h1
    simp [List.takeWhile_cons, h1.1, ih h1.2]

lemma dropWhile_append_middle (p : Char → Bool) (l1 : List Char) (c : Char)
    (l2 : List Char) (h1 : l1.all p = true) (hc : p c = false) :
    (l1 ++ c :: l2).dropWhile p = c :: l2 := by
  induction l1 with
  | nil => simp [List.dropWhile_cons, hc]
  | cons a l ih =>
    simp only [List.all_cons, Bool.and_eq_true] at h1
    simp [List.dropWhile_cons, h1.1, ih h1.2]

lemma takeWhile_all_eq (p : Char → Bool) (l : List Char) (h : l.all p = true) :
    l.takeWhile p = l := by
  induction l with
  | nil => rfl
  | cons a l ih =>
    simp only [List.all_cons, Bool.and_eq_true] at h
    simp [List.takeWhile_cons, h.1, ih h.2]

lemma dropWhile_all_eq (p : Char → Bool) (l : List Char) (h : l.all p = true) :
    l.dropWhile p = [] := by
  induction l with
  | nil => rfl
  | cons a l ih =>
    simp only [List.all_cons, Bool.and_eq_true] at h
    simp [List.dropWhile_cons, h.1, ih h.2]

lemma parseUnsigned_render (a b : Nat) (hb : b < 1000) :
    parseUnsigned (natDigitChars a ++ '.' :: padLeft3 (natDigitChars b)) =
      some ((a : ℚ) + mkRat b 1000) := by
  have hall := natDigitChars_all_digits a
  have hdot : isDigitChar '.' = false := rfl
  have hfr := padLeft3_all_digits _ (natDigitChars_all_digits b)
  have hlen : (padLeft3 (natDigitChars b)).length = 3 :=
    padLeft3_length _ (natDigitChars_length_le b 3 (by norm_num) (by omega))
  unfold parseUnsigned
  rw [takeWhile_append_middle _ _ _ _ hall hdot, dropWhile_append_middle _ _ _ _ hall hdot]
  have hne : ¬ (natDigitChars a).isEmpty := by
    rw [List.isEmpty_iff]
    exact natDigitChars_ne_nil a
  simp only [hfr, hne, hlen]
  rw [if_pos (by simp [hne])]
  rw [digitsVal_natDigitChars, digitsVal_padLeft3, digitsVal_natDigitChars]
  norm_num

lemma commaToDot_data (s : String) :
    (commaToDot s).toList = s.toList.map fun c => if c = ',' then '.' else c := rfl

lemma map_commaFix_of_all_digits (l : List Char) (h : l.all isDigitChar = true) :
    (l.map fun c => if c = ',' then '.' else c) = l := by
  induction l with
  | nil => rfl
  | cons a l ih =>
    simp only [List.all_cons, Bool.and_eq_true] at h
    have ha : a ≠ ',' := by
      intro e
      subst e
      exact absurd h.1 (by decide)
    simp [ha, ih h.2]

lemma isDigitChar_ne_minus (c : Char) (h : isDigitChar c = true) : c ≠ '-' := by
  intro e
  subst e
  exact absurd h (by decide)

lemma isDigitChar_ne_plus (c : Char) (h : isDigitChar c = true) : c ≠ '+' := by
  intro e
  subst e
  exact absurd h (by decide)

lemma parseDec_digits_dot (a b : Nat) (hb : b < 1000) :
    parseDec (String.mk (natDigitChars a ++ '.' :: padLeft3 (natDigitChars b))) =
      some ((a : ℚ) + mkRat (b : Nat) 1000) := by
  obtain ⟨c0, A2, hA⟩ := List.exists_cons_of_ne_nil (natDigitChars_ne_nil a)
  have hc0 : isDigitChar c0 = true := by
    have := natDigitChars_all_digits a
    rw [hA] at this
    simp only [List.all_cons, Bool.and_eq_true] at this
    exact this.1
  rw [show (String.mk (natDigitChars a ++ '.' :: padLeft3 (natDigitChars b))) =
      String.mk (c0 :: (A2 ++ '.' :: padLeft3 (natDigitChars b))) by
    rw [hA, List.cons_append]]
  show parseDec _ = _
  unfold parseDec
  simp only [String.toList]
  rw [if_neg (isDigitChar_ne_minus c0 hc0), if_neg (isDigitChar_ne_plus c0 hc0)]
  rw [show c0 :: (A2 ++ '.' :: padLeft3 (natDigitChars b)) =
      natDigitChars a ++ '.' :: padLeft3 (natDigitChars b) by rw [hA, List.cons_append]]
  exact parseUnsigned_render a b hb

lemma parseDec_neg_digits_dot (a b : Nat) (hb : b < 1000) :
    parseDec (String.mk ('-' :: (natDigitChars a ++ '.' :: padLeft3 (natDigitChars b)))) =
      some (-((a : ℚ) + mkRat (b : Nat) 1000)) := by
  show parseDec _ = _
  unfold parseDec
  simp only [String.toList]
  simp [parseUnsigned_render a b hb]

lemma commaToDot_formatFixed3 (q : ℚ) :
    commaToDot (formatFixed3 q) = String.mk
      ((if q < 0 then ['-'] else []) ++
        natDigitChars ((roundHalfEven (1000 * q)).natAbs / 1000) ++
        '.' :: padLeft3 (natDigitChars ((roundHalfEven (1000 * q)).natAbs % 1000))) := by
  show String.mk _ = _
  unfold formatFixed3
  simp only [String.toList]
  congr 1
  by_cases hq : q < 0 <;>
    simp only [hq, if_true, if_false, List.map_append, List.map_cons, List.map_nil,
      List.nil_append, List.cons_append, List.append_assoc,
      map_commaFix_of_all_digits _ (natDigitChars_all_digits _),
      map_commaFix_of_all_digits _ (padLeft3_all_digits _ (natDigitChars_all_digits _))] <;>
    rfl

/-- The value denoted by a digit rendering split at the thousands:
`(N / 1000) + (N % 1000)/1000 = N / 1000` exactly. -/
lemma digits_value_split (N : Nat) :
    ((N / 1000 : Nat) : ℚ) + mkRat ((N % 1000 : Nat) : Int) 1000 = (N : ℚ) / 1000 := by
  have hsplit : (1000 * (N / 1000) + N % 1000 : Nat) = N := Nat.div_add_mod N 1000
  have hq : 1000 * ((N / 1000 : Nat) : ℚ) + ((N % 1000 : Nat) : ℚ) = (N : ℚ) := by
    exact_mod_cast congrArg (fun m : Nat => (m : ℚ)) hsplit
  rw [Rat.mkRat_eq_div, eq_div_iff (by norm_num : (1000 : ℚ) ≠ 0), Int.cast_natCast]
  linarith

/-- The rendered string of `formatFixed3`, with the comma replaced by a dot,
parses back to exactly the rounded value over `1000`. -/
lemma parseBack_formatFixed3 (q : ℚ) :
    parseBack (formatFixed3 q) = some ((roundHalfEven (1000 * q) : ℚ) / 1000) := by
  unfold parseBack
  rw [commaToDot_formatFixed3]
  set n := roundHalfEven (1000 * q) with hn
  have hmod : n.natAbs % 1000 < 1000 := Nat.mod_lt _ (by norm_num)
  by_cases hq : q < 0
  · have hnn : n ≤ 0 := hn ▸ roundHalfEven_nonpos _ (by nlinarith)
    have habs : ((n.natAbs : ℤ) : ℚ) = -(n : ℚ) := by
      exact_mod_cast congrArg (fun z : ℤ => (z : ℚ)) (Int.ofNat_natAbs_of_nonpos hnn)
    have hNq : (n.natAbs : ℚ) = -(n : ℚ) := by
      rw [← Int.cast_natCast (R := ℚ)]
      exact habs
    simp only [hq, if_true, List.cons_append, List.nil_append]
    rw [parseDec_neg_digits_dot _ _ hmod, digits_value_split n.natAbs, hNq,
      neg_div, neg_neg]
  · have hnn : 0 ≤ n := hn ▸ roundHalfEven_nonneg _ (by nlinarith [not_lt.mp hq])
    have habs : ((n.natAbs : ℤ) : ℚ) = (n : ℚ) := by
      exact_mod_cast congrArg (fun z : ℤ => (z : ℚ)) (Int.natAbs_of_nonneg hnn)
    have hNq : (n.natAbs : ℚ) = (n : ℚ) := by
      rw [← Int.cast_natCast (R := ℚ)]
      exact habs
    simp only [hq, if_false, List.nil_append]
    rw [parseDec_digits_dot _ _ hmod, digits_value_split n.natAbs, hNq]

/-! ### Lemmas: sorting, min/max, the grid -/

lemma sortBars_perm (l : List NBar) : (sortBars l).Perm l :=
  List.perm_insertionSort nbarLE l

lemma mem_sortBars (l : List NBar) (b : NBar) : b ∈ sortBars l ↔ b ∈ l :=
  (sortBars_perm l).mem_iff

lemma sortBars_eq_nil_iff (l : List NBar) : sortBars l = [] ↔ l = [] := by
  constructor
  · intro h
    exact List.Perm.eq_nil (h ▸ (sortBars_perm l).symm)
  · intro h
    subst h
    rfl

lemma sortBars_map_nodup (l : List NBar) :
    ((sortBars l).map NBar.t).Nodup ↔ (l.map NBar.t).Nodup :=
  ((sortBars_perm l).map NBar.t).nodup_iff

lemma foldl_min_le_acc (xs : List NBar) (acc : Int) :
    xs.foldl (fun m x => min m x.t) acc ≤ acc := by
  induction xs generalizing acc with
  | nil => exact le_rfl
  | cons x xs ih => exact le_trans (ih (min acc x.t)) (min_le_left _ _)

lemma foldl_min_le_mem (xs : List NBar) (acc : Int) (b : NBar) (hb : b ∈ xs) :
    xs.foldl (fun m x => min m x.t) acc ≤ b.t := by
  induction xs generalizing acc with
  | nil => cases hb
  | cons x xs ih =>
    rcases List.mem_cons.mp hb with h | h
    · subst h
      exact le_trans (foldl_min_le_acc xs _) (min_le_right _ _)
    · exact ih _ h

lemma foldl_min_mem (xs : List NBar) (acc : Int) :
    xs.foldl (fun m x => min m x.t) acc = acc ∨
      ∃ b ∈ xs, xs.foldl (fun m x => min m x.t) acc = b.t := by
  induction xs generalizing acc with
  | nil => exact Or.inl rfl
  | cons x xs ih =>
    rcases ih (min acc x.t) with h | ⟨b, hb, h⟩
    · rcases min_cases acc x.t with ⟨he, _⟩ | ⟨he, _⟩
      · exact Or.inl (by rw [List.foldl_cons, h, he])
      · exact Or.inr ⟨x, List.mem_cons_self _ _, by rw [List.foldl_cons, h, he]⟩
    · exact Or.inr ⟨b, List.mem_cons_of_mem _ hb, by rw [List.foldl_cons, h]⟩

lemma minTime_le (l : List NBar) (b : NBar) (hb : b ∈ l) : minTime l ≤ b.t := by
  cases l with
  | nil => cases hb
  | cons x xs =>
    rcases List.mem_cons.mp hb with h | h
    · subst h
      exact foldl_min_le_acc xs _
    · exact foldl_min_le_mem xs _ b h

lemma minTime_mem (l : List NBar) (hl : l ≠ []) : ∃ b ∈ l, minTime l = b.t := by
  cases l with
  | nil => exact absurd rfl hl
  | cons x xs =>
    rcases foldl_min_mem xs x.t with h | ⟨b, hb, h⟩
    · exact ⟨x, List.mem_cons_self _ _, h⟩
    · exact ⟨b, List.mem_cons_of_mem _ hb, h⟩

lemma foldl_max_acc_le (xs : List NBar) (acc : Int) :
    acc ≤ xs.foldl (fun m x => max m x.t) acc := by
  induction xs generalizing acc with
  | nil => exact le_rfl
  | cons x xs ih => exact le_trans (le_max_left _ _) (ih (max acc x.t))

lemma foldl_max_mem_le (xs : List NBar) (acc : Int) (b : NBar) (hb : b ∈ xs) :
    b.t ≤ xs.foldl (fun m x => max m x.t) acc := by
  induction xs generalizing acc with
  | nil => cases hb
  | cons x xs ih =>
    rcases List.mem_cons.mp hb with h | h
    · subst h
      exact le_trans (le_max_right _ _) (foldl_max_acc_le xs _)
    · exact ih _ h

lemma foldl_max_mem (xs : List NBar) (acc : Int) :
    xs.foldl (fun m x => max m x.t) acc = acc ∨
      ∃ b ∈ xs, xs.foldl (fun m x => max m x.t) acc = b.t := by
  induction xs generalizing acc with
  | nil => exact Or.inl rfl
  | cons x xs ih =>
    rcases ih (max acc x.t) with h | ⟨b, hb, h⟩
    · rcases max_cases acc x.t with ⟨he, _⟩ | ⟨he, _⟩
      · exact Or.inl (by rw [List.foldl_cons, h, he])
      · exact Or.inr ⟨x, List.mem_cons_self _ _, by rw [List.foldl_cons, h, he]⟩
    · exact Or.inr ⟨b, List.mem_cons_of_mem _ hb, by rw [List.foldl_cons, h]⟩

lemma le_maxTime (l : List NBar) (b : NBar) (hb : b ∈ l) : b.t ≤ maxTime l := by
  cases l with
  | nil => cases hb
  | cons x xs =>
    rcases List.mem_cons.mp hb with h | h
    · subst h
      exact foldl_max_acc_le xs _
    · exact foldl_max_mem_le xs _ b h

lemma maxTime_mem (l : List NBar) (hl : l ≠ []) : ∃ b ∈ l, maxTime l = b.t := by
  cases l with
  | nil => exact absurd rfl hl
  | cons x xs =>
    rcases foldl_max_mem xs x.t with h | ⟨b, hb, h⟩
    · exact ⟨x, List.mem_cons_self _ _, h⟩
    · exact ⟨b, List.mem_cons_of_mem _ hb, h⟩

lemma minTime_perm (l1 l2 : List NBar) (hp : l1.Perm l2) (hl : l1 ≠ []) :
    minTime l1 = minTime l2 := by
  have hl2 : l2 ≠ [] := by
    intro h
    subst h
    exact hl hp.eq_nil
  obtain ⟨b1, hb1, he1⟩ := minTime_mem l1 hl
  obtain ⟨b2, hb2, he2⟩ := minTime_mem l2 hl2
  have h12 : minTime l1 ≤ minTime l2 := he2 ▸ minTime_le l1 b2 (hp.mem_iff.mpr hb2)
  have h21 : minTime l2 ≤ minTime l1 := he1 ▸ minTime_le l2 b1 (hp.mem_iff.mp hb1)
  omega

lemma maxTime_perm (l1 l2 : List NBar) (hp : l1.Perm l2) (hl : l1 ≠ []) :
    maxTime l1 = maxTime l2 := by
  have hl2 : l2 ≠ [] := by
    intro h
    subst h
    exact hl hp.eq_nil
  obtain ⟨b1, hb1, he1⟩ := maxTime_mem l1 hl
  obtain ⟨b2, hb2, he2⟩ := maxTime_mem l2 hl2
  have h12 : maxTime l2 ≤ maxTime l1 := he2 ▸ le_maxTime l1 b2 (hp.mem_iff.mpr hb2)
  have h21 : maxTime l1 ≤ maxTime l2 := he1 ▸ le_maxTime l2 b1 (hp.mem_iff.mp hb1)
  omega

lemma minTime_le_maxTime (l : List NBar) (hl : l ≠ []) : minTime l ≤ maxTime l := by
  obtain ⟨b, hb, he⟩ := minTime_mem l hl
  exact he ▸ le_trans (le_rfl.trans (he ▸ minTime_le l b hb)) (le_maxTime l b hb)

lemma gridSlots_length (step minT maxT : Int) :
    (gridSlots step minT maxT).length = ((maxT - minT) / step).toNat + 1 := by
  unfold gridSlots
  rw [List.length_map, List.length_range]

lemma gridSlots_get (step minT maxT : Int) (i : Nat)
    (h : i < (gridSlots step minT maxT).length) :
    (gridSlots step minT maxT).get ⟨i, h⟩ = minT + step * i := by
  unfold gridSlots
  rw [List.get_map, List.get_range]

lemma gridSlots_mem_iff (step minT maxT : Int) (hstep : 0 < step) (hle : minT ≤ maxT)
    (s : Int) :
    s ∈ gridSlots step minT maxT ↔ minT ≤ s ∧ s ≤ maxT ∧ (s - minT) % step = 0 := by
  have hq : 0 ≤ (maxT - minT) / step := Int.ediv_nonneg (by omega) (by omega)
  have hqe : step * ((maxT - minT) / step) + (maxT - minT) % step = maxT - minT :=
    Int.ediv_add_emod (maxT - minT) step
  have hre : 0 ≤ (maxT - minT) % step := Int.emod_nonneg _ (by omega)
  have hrl : (maxT - minT) % step < step := Int.emod_lt_of_pos _ hstep
  constructor
  · intro hs
    unfold gridSlots at hs
    obtain ⟨i, hi, rfl⟩ := List.mem_map.mp hs
    rw [List.mem_range] at hi
    have hiq : (i : Int) ≤ (maxT - minT) / step := by
      have := Nat.lt_succ_iff.mp hi
      omega
    have hprod : step * (i : Int) ≤ step * ((maxT - minT) / step) :=
      mul_le_mul_of_nonneg_left hiq (le_of_lt hstep)
    have hnn : 0 ≤ step * (i : Int) := mul_nonneg hstep.le (Int.natCast_nonneg i)
    refine ⟨by omega, by omega, ?_⟩
    have he : minT + step * (i : Int) - minT = step * (i : Int) := by ring
    rw [he]
    exact Int.mul_emod_right step i
  · rintro ⟨h1, h2, h3⟩
    obtain ⟨k, hk⟩ := Int.dvd_of_emod_eq_zero h3
    have hk0 : 0 ≤ k := by
      have h0 : step * 0 ≤ step * k := by rw [mul_zero]; omega
      exact (mul_le_mul_left hstep).mp h0
    have hkq : k ≤ (maxT - minT) / step := by
      have hlt : step * k < step * ((maxT - minT) / step + 1) := by
        have : step * ((maxT - minT) / step + 1) =
            step * ((maxT - minT) / step) + step := by ring
        omega
      have := (mul_lt_mul_left hstep).mp hlt
      omega
    unfold gridSlots
    refine List.mem_map.mpr ⟨k.toNat, List.mem_range.mpr (by omega), ?_⟩
    rw [Int.toNat_of_nonneg hk0]
    omega

lemma gridSlots_chain (step minT maxT : Int) (hstep : 0 < step) :
    (gridSlots step minT maxT).Chain' (· < ·) := by
  rw [List.chain'_iff_get]
  intro i h
  rw [gridSlots_get, gridSlots_get]
  have : step * i < step * (i + 1 : Nat) := by
    have : (i : Int) < (i + 1 : Nat) := by push_cast; omega
    exact (mul_lt_mul_left hstep).mpr this
  omega

lemma gridSlots_nodup (step minT maxT : Int) (hstep : 0 < step) :
    (gridSlots step minT maxT).Nodup :=
  ((List.chain'_iff_pairwise).mp (gridSlots_chain step minT maxT hstep)).nodup

lemma gridSlots_head (step minT maxT : Int) :
    (gridSlots step minT maxT).head? = some minT := by
  unfold gridSlots
  rw [List.range_succ_eq_map, List.map_cons, List.head?_cons]
  norm_num

/-! ### Lemmas: the transform -/

lemma convert_ok_iff (tz : Int → Int) (g : Int) (input : List Bar) (rows : List Row) :
    convert_csv_to_excel_ny_time tz g input = .ok rows ↔
      (normalizeBars input ≠ [] ∧
       ((sortBars (normalizeBars input)).map NBar.t).Nodup ∧
       rows = (gridSlots (60 * g) (minTime (sortBars (normalizeBars input)))
         (maxTime (sortBars (normalizeBars input)))).map
           (mkRow tz (sortBars (normalizeBars input)))) := by
  unfold convert_csv_to_excel_ny_time
  cases hn : normalizeBars input with
  | nil => simp
  | cons a l =>
    simp only []
    split
    · next hnd =>
      simp only [Except.ok.injEq]
      constructor
      · intro h
        exact ⟨by simp, hnd, h.symm⟩
      · rintro ⟨-, -, h⟩
        exact h.symm
    · next hnd =>
      simp only [reduceCtorEq, false_iff, not_and]
      intro _ h
      exact absurd h hnd

lemma convert_error_empty_iff (tz : Int → Int) (g : Int) (input : List Bar) :
    convert_csv_to_excel_ny_time tz g input = .error .emptyAfterNormalization ↔
      normalizeBars input = [] := by
  unfold convert_csv_to_excel_ny_time
  cases hn : normalizeBars input with
  | nil => simp
  | cons a l =>
    simp only []
    split <;> simp

lemma mkRow_slot (tz : Int → Int) (sorted : List NBar) (s : Int) :
    (mkRow tz sorted s).slot = s := rfl

lemma mkRow_Date (tz : Int → Int) (sorted : List NBar) (s : Int) :
    (mkRow tz sorted s).Date = dateString tz s := rfl

lemma mkRow_Time (tz : Int → Int) (sorted : List NBar) (s : Int) :
    (mkRow tz sorted s).Time = timeString tz s := rfl

lemma find?_eq_some_self (l : List NBar) (hnd : (l.map NBar.t).Nodup) (b : NBar)
    (hb : b ∈ l) : l.find? (fun x => x.t = b.t) = some b := by
  have hsome : (l.find? (fun x => x.t = b.t)).isSome := by
    rw [List.find?_isSome]
    exact ⟨b, hb, by simp⟩
  obtain ⟨a, ha⟩ := Option.isSome_iff_exists.mp hsome
  have hmem : a ∈ l := List.mem_of_find?_eq_some ha
  have hat : a.t = b.t := by simpa using List.find?_some ha
  have hab : a = b := List.inj_on_of_nodup_map hnd hmem hb hat
  rw [ha, hab]

lemma mkRow_found (tz : Int → Int) (sorted : List NBar) (b : NBar)
    (hfind : sorted.find? (fun x => x.t = b.t) = some b) :
    mkRow tz sorted b.t = ⟨b.t, dateString tz b.t, timeString tz b.t,
      format_price_or_gap (fillGap b.«open»), format_price_or_gap (fillGap b.high),
      format_price_or_gap (fillGap b.low), format_price_or_gap (fillGap b.close)⟩ := by
  unfold mkRow
  rw [hfind]

lemma mkRow_notfound (tz : Int → Int) (sorted : List NBar) (s : Int)
    (hfind : sorted.find? (fun x => x.t = s) = none) :
    mkRow tz sorted s = ⟨s, dateString tz s, timeString tz s, "GAP", "GAP", "GAP", "GAP"⟩ := by
  unfold mkRow
  rw [hfind]
  rfl

/-- Every row of a successful run is the `mkRow` of some grid slot, and
conversely. -/
lemma convert_ok_rows (tz : Int → Int) (g : Int) (input : List Bar) (rows : List Row)
    (h : convert_csv_to_excel_ny_time tz g input = .ok rows) (r : Row) (hr : r ∈ rows) :
    ∃ s ∈ gridSlots (60 * g) (minTime (sortBars (normalizeBars input)))
      (maxTime (sortBars (normalizeBars input))),
      r = mkRow tz (sortBars (normalizeBars input)) s := by
  obtain ⟨-, -, hrows⟩ := (convert_ok_iff tz g input rows).mp h
  subst hrows
  obtain ⟨s, hs, rfl⟩ := List.mem_map.mp hr
  exact ⟨s, hs, rfl⟩

lemma convert_ok_nodup (tz : Int → Int) (g : Int) (input : List Bar) (rows : List Row)
    (h : convert_csv_to_excel_ny_time tz g input = .ok rows) :
    ((sortBars (normalizeBars input)).map NBar.t).Nodup :=
  ((convert_ok_iff tz g input rows).mp h).2.1

lemma convert_ok_ne_nil (tz : Int → Int) (g : Int) (input : List Bar) (rows : List Row)
    (h : convert_csv_to_excel_ny_time tz g input = .ok rows) :
    normalizeBars input ≠ [] :=
  ((convert_ok_iff tz g input rows).mp h).1

/-! ### Lemmas: Date and Time rendering -/

lemma civil_md_bounds (z : Int) :
    1 ≤ (civilFromDays z).2.1 ∧ (civilFromDays z).2.1 ≤ 12 ∧
    1 ≤ (civilFromDays z).2.2 ∧ (civilFromDays z).2.2 ≤ 31 := by
  simp only [civilFromDays]
  split_ifs <;> omega

lemma mk_ne_empty_of_ne_nil (l : List Char) (h : l ≠ []) : String.mk l ≠ "" :=
  fun e => h (congrArg String.data e)

lemma length_mk (l : List Char) : (String.mk l).length = l.length := rfl

lemma pad2_pos_length (n : Int) : 1 ≤ (pad2 n).length := by
  unfold pad2 padLeft2
  have := natDigitChars_ne_nil n.toNat
  rw [List.length_append]
  cases h : natDigitChars n.toNat with
  | nil => exact absurd h this
  | cons c cs => simp; omega

lemma dateString_ne_empty (tz : Int → Int) (t : Int) : dateString tz t ≠ "" := by
  unfold dateString
  apply mk_ne_empty_of_ne_nil
  intro h
  have := congrArg List.length h
  rw [List.length_append, List.length_append, List.length_append, List.length_append] at this
  have h1 := pad2_pos_length (localCivil tz t).2.2
  simp at this

lemma timeString_ne_empty (tz : Int → Int) (t : Int) : timeString tz t ≠ "" := by
  unfold timeString
  apply mk_ne_empty_of_ne_nil
  intro h
  have := congrArg List.length h
  rw [List.length_append, List.length_append, List.length_append, List.length_append] at this
  have h1 := pad2_pos_length (((t + tz t) % 86400) / 3600)
  simp at this

lemma timeString_length (tz : Int → Int) (t : Int) : (timeString tz t).length = 8 := by
  unfold timeString
  have hsod1 : 0 ≤ (t + tz t) % 86400 := Int.emod_nonneg _ (by norm_num)
  have hsod2 : (t + tz t) % 86400 < 86400 := Int.emod_lt_of_pos _ (by norm_num)
  rw [length_mk, List.length_append, List.length_append, List.length_append,
    List.length_append, pad2_length _ (by omega), pad2_length _ (by omega),
    pad2_length _ (by omega)]
  rfl

lemma dateString_length (tz : Int → Int) (t : Int)
    (h1 : 1000 ≤ (localCivil tz t).1) (h2 : (localCivil tz t).1 < 10000) :
    (dateString tz t).length = 10 := by
  unfold dateString
  obtain ⟨hm1, hm2, hd1, hd2⟩ := civil_md_bounds ((t + tz t) / 86400)
  have hmd : 1 ≤ (localCivil tz t).2.1 ∧ (localCivil tz t).2.1 ≤ 12 ∧
      1 ≤ (localCivil tz t).2.2 ∧ (localCivil tz t).2.2 ≤ 31 := by
    unfold localCivil
    exact ⟨hm1, hm2, hd1, hd2⟩
  have hyr : (natDigitChars (localCivil tz t).1.toNat).length = 4 := by
    have : (10 : Nat) ^ 3 ≤ (localCivil tz t).1.toNat ∧
        (localCivil tz t).1.toNat < 10 ^ (3 + 1) := by
      constructor <;> [norm_num; norm_num] <;> omega
    exact natDigitChars_length_eq _ 3 this.1 this.2
  rw [length_mk, List.length_append, List.length_append, List.length_append,
    List.length_append, pad2_length _ (by omega), pad2_length _ (by omega), hyr]
  rfl

/-! ### Lemmas: column assembly -/

lemma lookup_cons_eq (k : String) (v : CellValue) (es : Rec) :
    ((k, v) :: es).lookup k = some v := by
  simp [List.lookup_cons]

lemma lookup_cons_ne (a k : String) (h : a ≠ k) (v : CellValue) (es : Rec) :
    ((k, v) :: es).lookup a = es.lookup a := by
  simp [List.lookup_cons, beq_false_of_ne h]

lemma lookup_append_left (r l2 : Rec) (c : String) (h : (r.lookup c).isSome) :
    (r ++ l2).lookup c = r.lookup c := by
  induction r with
  | nil => simp at h
  | cons p ps ih =>
    obtain ⟨k, v0⟩ := p
    by_cases hc : c = k
    · subst hc
      rw [List.cons_append, lookup_cons_eq, lookup_cons_eq]
    · rw [List.cons_append, lookup_cons_ne _ _ hc, lookup_cons_ne _ _ hc]
      rw [lookup_cons_ne _ _ hc] at h
      exact ih h

lemma lookup_append_right (r l2 : Rec) (c : String) (h : r.lookup c = none) :
    (r ++ l2).lookup c = l2.lookup c := by
  induction r with
  | nil => rfl
  | cons p ps ih =>
    obtain ⟨k, v0⟩ := p
    by_cases hc : c = k
    · subst hc
      rw [lookup_cons_eq] at h
      cases h
    · rw [lookup_cons_ne _ _ hc] at h
      rw [List.cons_append, lookup_cons_ne _ _ hc]
      exact ih h

lemma addMissingFinal_keeps (cols : List String) (r : Rec) (c : String) (v : CellValue)
    (h : r.lookup c = some v) : (addMissingFinal cols r).lookup c = some v := by
  induction cols generalizing r with
  | nil => exact h
  | cons c0 cs ih =>
    unfold addMissingFinal
    split
    · exact ih r h
    · exact ih _ (by rw [lookup_append_left r _ c (by rw [h]; rfl)]; exact h)

lemma addMissingFinal_fills (cols : List String) (c : String) (hc : c ∈ cols) :
    ∀ r : Rec, r.lookup c = none →
      (addMissingFinal cols r).lookup c = some CellValue.nan := by
  induction cols with
  | nil => cases hc
  | cons c0 cs ih =>
    intro r h
    unfold addMissingFinal
    by_cases he : c0 = c
    · subst he
      split
      · next hs =>
        rw [h] at hs
        simp at hs
      · have hlook : (r ++ [(c0, CellValue.nan)]).lookup c0 = some CellValue.nan := by
          rw [lookup_append_right r _ c0 h, lookup_cons_eq]
        exact addMissingFinal_keeps cs _ c0 _ hlook
    · have hcs : c ∈ cs := by
        rcases List.mem_cons.mp hc with h1 | h1
        · exact absurd h1.symm he
        · exact h1
      have hne : c ≠ c0 := fun e => he e.symm
      split
      · exact ih hcs r h
      · refine ih hcs _ ?_
        rw [lookup_append_right r _ c h, lookup_cons_ne _ _ hne, List.lookup_nil]

lemma selectCols_eq_map (cols : List String) (r : Rec) (v : String → CellValue)
    (h : ∀ c ∈ cols, r.lookup c = some (v c)) :
    selectCols cols r = some (cols.map fun c => (c, v c)) := by
  induction cols with
  | nil => rfl
  | cons c0 cs ih =>
    have h0 := h c0 (List.mem_cons_self _ _)
    have hrest : selectCols cs r = some (cs.map fun c => (c, v c)) :=
      ih fun c hc => h c (List.mem_cons_of_mem _ hc)
    unfold selectCols at hrest ⊢
    rw [List.mapM_cons, h0, hrest]
    rfl

lemma lookup_map_pair (cols : List String) (v : String → CellValue) (c : String)
    (hc : c ∈ cols) : (cols.map fun c => (c, v c)).lookup c = some (v c) := by
  induction cols with
  | nil => cases hc
  | cons c0 cs ih =>
    by_cases he : c0 = c
    · subst he
      rw [List.map_cons, lookup_cons_eq]
    · rcases List.mem_cons.mp hc with h1 | h1
      · exact absurd h1.symm he
      · rw [List.map_cons, lookup_cons_ne _ _ (fun e => he e.symm)]
        exact ih h1

lemma formatPriceCells_map (cols : List String) (v : String → CellValue) :
    formatPriceCells (cols.map fun c => (c, v c)) =
      cols.map fun c => (c, if c ∈ priceCols
        then CellValue.str (format_price_or_gap (v c)) else v c) := by
  unfold formatPriceCells
  rw [List.map_map]
  refine List.map_congr_left fun c _ => ?_
  by_cases hc : c ∈ priceCols <;> simp [hc]


/-- Every row of a successful run either takes its four price fields from the
unique bar at exactly its slot (nulls GAP-filled, then formatted), or is a
pure GAP row with no bar at its slot. -/
lemma rows_match_or_gap (tz : Int → Int) (g : Int) (input : List Bar)
    (rows : List Row) (h : convert_csv_to_excel_ny_time tz g input = .ok rows) :
    ∀ r ∈ rows,
      (∃ b, b ∈ normalizeBars input ∧ b.t = r.slot ∧
        r.OPEN = format_price_or_gap (fillGap b.«open») ∧
        r.HIGH = format_price_or_gap (fillGap b.high) ∧
        r.LOW = format_price_or_gap (fillGap b.low) ∧
        r.CLOSE = format_price_or_gap (fillGap b.close)) ∨
      ((∀ b ∈ normalizeBars input, b.t ≠ r.slot) ∧
        r.OPEN = "GAP" ∧ r.HIGH = "GAP" ∧ r.LOW = "GAP" ∧ r.CLOSE = "GAP") := by
  intro r hr
  obtain ⟨s, -, hrk⟩ := convert_ok_rows tz g input rows h r hr
  subst hrk
  cases hfind : (sortBars (normalizeBars input)).find? (fun b => b.t = s) with
  | some b =>
    left
    have hmem : b ∈ normalizeBars input :=
      (mem_sortBars _ _).mp (List.mem_of_find?_eq_some hfind)
    have hbt : b.t = s := by simpa using List.find?_some hfind
    subst hbt
    rw [mkRow_found tz _ b hfind]
    exact ⟨b, hmem, rfl, rfl, rfl, rfl, rfl⟩
  | none =>
    right
    have hnone : ∀ b ∈ normalizeBars input, b.t ≠ s := by
      intro b hb
      have := List.find?_eq_none.mp hfind b ((mem_sortBars _ _).mpr hb)
      simpa using this
    rw [mkRow_notfound tz _ s hfind]
    exact ⟨hnone, rfl, rfl, rfl, rfl⟩

/-! ### The claims -/

set_option maxRecDepth 10000

/-- C8: for every input table with zero rows, or in which every row's time
value fails timestamp parsing (normalization leaves nothing), the run stops
at the normalization stage with the no-valid-timestamps
(`EmptyAfterNormalization`) failure and produces no output. -/
theorem C8_empty_abort (tz : Int → Int) (g : Int) (input : List Bar)
    (h : normalizeBars input = []) :
    convert_csv_to_excel_ny_time tz g input = .error .emptyAfterNormalization :=
  (convert_error_empty_iff tz g input).mpr h

theorem C8_empty_abort_witness :
    normalizeBars [⟨none, .num 1, .num 1, .num 1, .num 1⟩] = [] ∧
    convert_csv_to_excel_ny_time (fun _ => 0) 15 [⟨none, .num 1, .num 1, .num 1, .num 1⟩] =
      .error .emptyAfterNormalization :=
  ⟨by decide, C8_empty_abort (fun _ => 0) 15 _ (by decide)⟩

/-- C9: for every numeric price value `v`, formatting `v` (3 fractional
digits, comma as decimal separator) and then parsing the result back (comma
to dot, re-parse as a decimal) yields a value within `0.0005` of `v`. -/
theorem C9_format_roundtrip (v : ℚ) :
    parseBack (format_price_or_gap (CellValue.num v)) =
      some ((roundHalfEven (1000 * v) : ℚ) / 1000) ∧
    |((roundHalfEven (1000 * v) : ℚ) / 1000) - v| ≤ 0.0005 := by
  constructor
  · exact parseBack_formatFixed3 v
  · have h := roundHalfEven_abs_sub_le (1000 * v)
    have he : ((roundHalfEven (1000 * v) : ℚ) / 1000) - v =
        ((roundHalfEven (1000 * v) : ℚ) - 1000 * v) / 1000 := by ring
    rw [he, abs_div]
    rw [show |(1000 : ℚ)| = 1000 from by norm_num]
    rw [div_le_iff (by norm_num)]
    calc |(roundHalfEven (1000 * v) : ℚ) - 1000 * v| ≤ 1 / 2 := h
    _ ≤ 0.0005 * 1000 := by norm_num

/-- C6: the price formatter passes the `GAP` sentinel through; renders a
numeric value with exactly 3 fractional digits under round-half-to-even with
the decimal point replaced by a comma (so that parsing the rendering back
gives the rounded thousandths exactly, and the integer price `100` renders as
`"100,000"`); and passes any non-numeric, non-GAP string through unchanged. -/
theorem C6_formatter :
    (format_price_or_gap (CellValue.str "GAP") = "GAP") ∧
    (∀ q : ℚ, format_price_or_gap (CellValue.num q) = formatFixed3 q ∧
      parseBack (formatFixed3 q) = some ((roundHalfEven (1000 * q) : ℚ) / 1000)) ∧
    (format_price_or_gap (CellValue.num 100) = "100,000") ∧
    (∀ s : String, s ≠ "GAP" → parseDec s = none →
      format_price_or_gap (CellValue.str s) = s) := by
  refine ⟨rfl, fun q => ⟨rfl, parseBack_formatFixed3 q⟩, ?_, ?_⟩
  · with_unfolding_all decide
  · intro s hs hp
    simp [format_price_or_gap, hs, hp]

theorem C6_formatter_witness :
    ("n/a" : String) ≠ "GAP" ∧ parseDec "n/a" = none ∧
    format_price_or_gap (CellValue.str "n/a") = "n/a" :=
  ⟨by decide, by decide, C6_formatter.2.2.2 "n/a" (by decide) (by decide)⟩

/-- C1 (as stated, refuted): the output grid of a successful run does not
always contain the maximum input instant as a slot: with bars 20 minutes
apart at the default 15-minute cadence, the grid stops at the last slot `≤`
the maximum, and the maximum input instant `1700001200` is not a slot. -/
theorem C1_counterexample :
    (convert_csv_to_excel_ny_time nyOffset 15
        [⟨some 1700000000, .num 1, .num 1, .num 1, .num 1⟩,
         ⟨some 1700001200, .num 2, .num 2, .num 2, .num 2⟩]).map (List.map Row.slot) =
      .ok [1700000000, 1700000900] ∧
    maxTime (normalizeBars
        [⟨some 1700000000, .num 1, .num 1, .num 1, .num 1⟩,
         ⟨some 1700001200, .num 2, .num 2, .num 2, .num 2⟩]) = 1700001200 ∧
    (1700001200 : Int) ∉ [(1700000000 : Int), 1700000900] := by
  refine ⟨?_, ?_, ?_⟩
  · with_unfolding_all decide
  · with_unfolding_all decide
  · decide

/-- C1 (amended): for every successful run with a positive cadence, the
output's instants form a strictly increasing, evenly spaced sequence at the
configured cadence with no duplicates, anchored at the minimum input instant
(`slot i = min + step * i`); every slot lies in `[min, max]`; and the
maximum input instant is itself a slot exactly when the cadence divides
`max - min` (pandas `date_range` is closed on the left and stops at the last
slot `≤ max`). -/
theorem C1_grid_structure (tz : Int → Int) (g : Int) (input : List Bar)
    (rows : List Row) (hg : 0 < g)
    (h : convert_csv_to_excel_ny_time tz g input = .ok rows) :
    (rows.map Row.slot).Chain' (· < ·) ∧
    (rows.map Row.slot).Nodup ∧
    (∀ i (hi : i < (rows.map Row.slot).length),
      (rows.map Row.slot).get ⟨i, hi⟩ =
        minTime (normalizeBars input) + 60 * g * i) ∧
    (rows.map Row.slot).head? = some (minTime (normalizeBars input)) ∧
    (∀ s ∈ rows.map Row.slot,
      minTime (normalizeBars input) ≤ s ∧ s ≤ maxTime (normalizeBars input)) ∧
    (maxTime (normalizeBars input) ∈ rows.map Row.slot ↔
      (60 * g) ∣ (maxTime (normalizeBars input) - minTime (normalizeBars input))) := by
  obtain ⟨hne, hnd, hrows⟩ := (convert_ok_iff tz g input rows).mp h
  have hsne : sortBars (normalizeBars input) ≠ [] :=
    fun e => hne ((sortBars_eq_nil_iff _).mp e)
  have hmin : minTime (sortBars (normalizeBars input)) = minTime (normalizeBars input) :=
    minTime_perm _ _ (sortBars_perm _) hsne
  have hmax : maxTime (sortBars (normalizeBars input)) = maxTime (normalizeBars input) :=
    maxTime_perm _ _ (sortBars_perm _) hsne
  have hslots : rows.map Row.slot = gridSlots (60 * g) (minTime (normalizeBars input))
      (maxTime (normalizeBars input)) := by
    rw [hrows, List.map_map, ← hmin, ← hmax,
      show (Row.slot ∘ mkRow tz (sortBars (normalizeBars input))) = id from
        funext fun s => rfl, List.map_id]
  have hstep : (0 : Int) < 60 * g := by omega
  have hle : minTime (normalizeBars input) ≤ maxTime (normalizeBars input) :=
    minTime_le_maxTime _ hne
  rw [hslots]
  refine ⟨gridSlots_chain _ _ _ hstep, gridSlots_nodup _ _ _ hstep, ?_, gridSlots_head _ _ _,
    ?_, ?_⟩
  · intro i hi
    rw [gridSlots_get]
  · intro s hs
    have := (gridSlots_mem_iff _ _ _ hstep hle s).mp hs
    exact ⟨this.1, this.2.1⟩
  · rw [gridSlots_mem_iff _ _ _ hstep hle]
    constructor
    · intro hmem
      exact Int.dvd_of_emod_eq_zero hmem.2.2
    · intro hdvd
      exact ⟨hle, le_rfl, Int.emod_eq_zero_of_dvd hdvd⟩

theorem C1_grid_structure_witness :
    (0 : Int) < 15 ∧
    convert_csv_to_excel_ny_time (fun _ => 0) 15
      [⟨some 0, .num 1, .num 1, .num 1, .num 1⟩,
       ⟨some 900, .num 2, .num 2, .num 2, .num 2⟩] =
      .ok [⟨0, "01/01/1970", "00:00:00", "1,000", "1,000", "1,000", "1,000"⟩,
           ⟨900, "01/01/1970", "00:15:00", "2,000", "2,000", "2,000", "2,000"⟩] ∧
    (([⟨0, "01/01/1970", "00:00:00", "1,000", "1,000", "1,000", "1,000"⟩,
       ⟨900, "01/01/1970", "00:15:00", "2,000", "2,000", "2,000", "2,000"⟩] :
        List Row).map Row.slot).Chain' (· < ·) := by
  have h2 : convert_csv_to_excel_ny_time (fun _ => 0) 15
      [⟨some 0, .num 1, .num 1, .num 1, .num 1⟩,
       ⟨some 900, .num 2, .num 2, .num 2, .num 2⟩] =
      .ok [⟨0, "01/01/1970", "00:00:00", "1,000", "1,000", "1,000", "1,000"⟩,
           ⟨900, "01/01/1970", "00:15:00", "2,000", "2,000", "2,000", "2,000"⟩] := by
    with_unfolding_all decide
  exact ⟨by norm_num, h2,
    (C1_grid_structure (fun _ => 0) 15 _ _ (by norm_num) h2).1⟩


/-- Input for the C2 counterexample: one bar, exactly on the grid anchor,
whose `open` price is null. -/
def c2CexInput : List Bar := [⟨some 0, CellValue.nan, .num 1, .num 1, .num 1⟩]

/-- C2 (as stated, refuted): a grid slot matched exactly by an input bar does
not always carry the *formatted source values* of that bar: when the bar's
`open` is null, the formatter applied to the source cell gives the empty
string, but the output cell is `"GAP"`, because `fillna("GAP")` runs over the
whole column (nulls included) before formatting. -/
theorem C2_counterexample :
    convert_csv_to_excel_ny_time nyOffset 15 c2CexInput =
      .ok [⟨0, "31/12/1969", "19:00:00", "GAP", "1,000", "1,000", "1,000"⟩] ∧
    format_price_or_gap CellValue.nan = "" ∧
    ("GAP" : String) ≠ format_price_or_gap CellValue.nan := by
  refine ⟨?_, rfl, ?_⟩
  · with_unfolding_all decide
  · decide

/-- C2 (amended): in every successful run, a grid slot matched exactly by an
input bar carries that bar's prices with nulls first replaced by the GAP
sentinel and then formatted (`format_price_or_gap ∘ fillGap`); a slot matched
by no input bar carries `"GAP"` in all four price fields. -/
theorem C2_gap_fidelity (tz : Int → Int) (g : Int) (input : List Bar)
    (rows : List Row) (h : convert_csv_to_excel_ny_time tz g input = .ok rows) :
    ∀ r ∈ rows,
      (∃ b, b ∈ normalizeBars input ∧ b.t = r.slot ∧
        r.OPEN = format_price_or_gap (fillGap b.«open») ∧
        r.HIGH = format_price_or_gap (fillGap b.high) ∧
        r.LOW = format_price_or_gap (fillGap b.low) ∧
        r.CLOSE = format_price_or_gap (fillGap b.close)) ∨
      ((∀ b ∈ normalizeBars input, b.t ≠ r.slot) ∧
        r.OPEN = "GAP" ∧ r.HIGH = "GAP" ∧ r.LOW = "GAP" ∧ r.CLOSE = "GAP") :=
  rows_match_or_gap tz g input rows h

/-- Input for the C2 witness: the spec's scenario, two bars 30 minutes apart
at the 15-minute cadence. -/
def c2Input : List Bar :=
  [⟨some 0, .num (mkRat 1001234 10000), .num 101, .num (mkRat 199 2), .num (mkRat 201 2)⟩,
   ⟨some 1800, .num 102, .num 103, .num 101, .num (mkRat 409 4)⟩]

/-- Output rows for the C2 witness. -/
def c2Rows : List Row :=
  [⟨0, "31/12/1969", "19:00:00", "100,123", "101,000", "99,500", "100,500"⟩,
   ⟨900, "31/12/1969", "19:15:00", "GAP", "GAP", "GAP", "GAP"⟩,
   ⟨1800, "31/12/1969", "19:30:00", "102,000", "103,000", "101,000", "102,250"⟩]

/-- The synthesized middle row of the C2 witness. -/
def c2GapRow : Row := ⟨900, "31/12/1969", "19:15:00", "GAP", "GAP", "GAP", "GAP"⟩

theorem C2_gap_fidelity_witness :
    convert_csv_to_excel_ny_time nyOffset 15 c2Input = .ok c2Rows ∧
    c2GapRow ∈ c2Rows ∧
    ((∃ b, b ∈ normalizeBars c2Input ∧ b.t = c2GapRow.slot ∧
        c2GapRow.OPEN = format_price_or_gap (fillGap b.«open») ∧
        c2GapRow.HIGH = format_price_or_gap (fillGap b.high) ∧
        c2GapRow.LOW = format_price_or_gap (fillGap b.low) ∧
        c2GapRow.CLOSE = format_price_or_gap (fillGap b.close)) ∨
      ((∀ b ∈ normalizeBars c2Input, b.t ≠ c2GapRow.slot) ∧
        c2GapRow.OPEN = "GAP" ∧ c2GapRow.HIGH = "GAP" ∧
        c2GapRow.LOW = "GAP" ∧ c2GapRow.CLOSE = "GAP")) := by
  have h : convert_csv_to_excel_ny_time nyOffset 15 c2Input = .ok c2Rows := by
    with_unfolding_all decide
  exact ⟨h, by decide, C2_gap_fidelity nyOffset 15 c2Input c2Rows h c2GapRow (by decide)⟩

/-- Input for the C3 counterexample: one on-grid bar with a null `high`. -/
def c3CexInput : List Bar := [⟨some 0, .num 1, CellValue.nan, .num 1, .num 1⟩]

/-- C3 (as stated, refuted): an on-grid input bar with a null price field does
not produce an empty-string output cell: the null is swallowed by the
column-wide `fillna("GAP")` and the cell reads `"GAP"`, which is neither
empty nor a number. -/
theorem C3_counterexample :
    convert_csv_to_excel_ny_time nyOffset 15 c3CexInput =
      .ok [⟨0, "31/12/1969", "19:00:00", "1,000", "GAP", "1,000", "1,000"⟩] ∧
    ("GAP" : String) ≠ "" := by
  refine ⟨?_, by decide⟩
  with_unfolding_all decide

/-- C3 (amended): in every successful run, for an input bar sitting exactly
on a grid slot, a null (`NaN`) price field renders as `"GAP"` (not as the
empty string), and an unparseable non-GAP string price field passes through
unchanged (not as the empty string); the formatter's empty-string branch is
unreachable for price cells in the pipeline. -/
theorem C3_null_handling (tz : Int → Int) (g : Int) (input : List Bar)
    (rows : List Row) (b : NBar) (r : Row)
    (h : convert_csv_to_excel_ny_time tz g input = .ok rows)
    (hb : b ∈ normalizeBars input) (hr : r ∈ rows) (hslot : r.slot = b.t) :
    (b.«open» = CellValue.nan → r.OPEN = "GAP") ∧
    (∀ s, b.«open» = CellValue.str s → s ≠ "GAP" → parseDec s = none → r.OPEN = s) ∧
    (b.high = CellValue.nan → r.HIGH = "GAP") ∧
    (∀ s, b.high = CellValue.str s → s ≠ "GAP" → parseDec s = none → r.HIGH = s) ∧
    (b.low = CellValue.nan → r.LOW = "GAP") ∧
    (∀ s, b.low = CellValue.str s → s ≠ "GAP" → parseDec s = none → r.LOW = s) ∧
    (b.close = CellValue.nan → r.CLOSE = "GAP") ∧
    (∀ s, b.close = CellValue.str s → s ≠ "GAP" → parseDec s = none → r.CLOSE = s) := by
  have hnd := convert_ok_nodup tz g input rows h
  obtain ⟨s, -, hrk⟩ := convert_ok_rows tz g input rows h r hr
  have hs : s = b.t := by
    rw [← hslot, hrk, mkRow_slot]
  subst hs
  have hfind : (sortBars (normalizeBars input)).find? (fun x => x.t = b.t) = some b :=
    find?_eq_some_self _ hnd b ((mem_sortBars _ _).mpr hb)
  rw [mkRow_found tz _ b hfind] at hrk
  subst hrk
  refine ⟨?_, ?_, ?_, ?_, ?_, ?_, ?_, ?_⟩ <;>
    first
    | · intro he
        rw [he]
        rfl
    | · intro s0 he hgap hparse
        show format_price_or_gap (fillGap _) = s0
        rw [he]
        show format_price_or_gap (CellValue.str s0) = s0
        simp [format_price_or_gap, hgap, hparse]

/-- Input for the C3 witness: an on-grid bar with a null `open` and an
unparseable string `high`. -/
def c3Input : List Bar := [⟨some 0, CellValue.nan, .str "abc", .num 1, .num 1⟩]

/-- Output row for the C3 witness. -/
def c3Row : Row := ⟨0, "31/12/1969", "19:00:00", "GAP", "abc", "1,000", "1,000"⟩

/-- The normalized bar of the C3 witness. -/
def c3Bar : NBar := ⟨0, CellValue.nan, .str "abc", .num 1, .num 1⟩

theorem C3_null_handling_witness :
    convert_csv_to_excel_ny_time nyOffset 15 c3Input = .ok [c3Row] ∧
    c3Bar ∈ normalizeBars c3Input ∧ c3Row ∈ [c3Row] ∧ c3Row.slot = c3Bar.t ∧
    (c3Bar.«open» = CellValue.nan → c3Row.OPEN = "GAP") ∧
    (∀ s, c3Bar.high = CellValue.str s → s ≠ "GAP" → parseDec s = none →
      c3Row.HIGH = s) := by
  have h : convert_csv_to_excel_ny_time nyOffset 15 c3Input = .ok [c3Row] := by
    with_unfolding_all decide
  have hmain := C3_null_handling nyOffset 15 c3Input [c3Row] c3Bar c3Row h
    (by decide) (by decide) (by decide)
  exact ⟨h, by decide, by decide, by decide, hmain.1, hmain.2.2.2.1⟩

/-- Input for the C4 counterexample: two rows with the same time value. -/
def c4CexInput : List Bar :=
  [⟨some 0, .num 1, .num 1, .num 1, .num 1⟩, ⟨some 0, .num 2, .num 2, .num 2, .num 2⟩]

/-- C4 (as stated, refuted): the sort-then-reindex stage does *not* complete
for every input: two rows with the same time value make the reindex fail
(pandas raises on a duplicate index) and the run aborts with no output — the
failure branch for duplicated instants is reachable. -/
theorem C4_counterexample :
    convert_csv_to_excel_ny_time nyOffset 15 c4CexInput = .error .duplicateAxis := by
  with_unfolding_all decide

/-- C4 (amended): for every input table whose normalized instants are
pairwise distinct — sorted or not — the sort-then-reindex gap-analysis stage
completes and the full output is produced; duplicated instants instead make
the reindex raise, and the run aborts with no output. -/
theorem C4_sort_reindex_total (tz : Int → Int) (g : Int) (input : List Bar)
    (hne : normalizeBars input ≠ [])
    (hnd : ((normalizeBars input).map NBar.t).Nodup) :
    convert_csv_to_excel_ny_time tz g input =
      .ok ((gridSlots (60 * g) (minTime (sortBars (normalizeBars input)))
        (maxTime (sortBars (normalizeBars input)))).map
          (mkRow tz (sortBars (normalizeBars input)))) :=
  (convert_ok_iff tz g input _).mpr
    ⟨hne, (sortBars_map_nodup _).mpr hnd, rfl⟩

/-- Input for the C4 witness: two bars out of time order. -/
def c4Input : List Bar :=
  [⟨some 900, .num 2, .num 2, .num 2, .num 2⟩, ⟨some 0, .num 1, .num 1, .num 1, .num 1⟩]

theorem C4_sort_reindex_total_witness :
    normalizeBars c4Input ≠ [] ∧
    ((normalizeBars c4Input).map NBar.t).Nodup ∧
    convert_csv_to_excel_ny_time nyOffset 15 c4Input =
      .ok ((gridSlots (60 * 15) (minTime (sortBars (normalizeBars c4Input)))
        (maxTime (sortBars (normalizeBars c4Input)))).map
          (mkRow nyOffset (sortBars (normalizeBars c4Input)))) :=
  ⟨by decide, by decide, C4_sort_reindex_total nyOffset 15 c4Input (by decide) (by decide)⟩

/-- C5: in every successful run with a positive cadence, an input bar whose
instant does not fall on the cadence grid anchored at the minimum input
instant contributes to no output row: no output row carries its instant, and
every output row is either a pure GAP row or takes its formatted prices from
a bar sitting exactly on that row's slot — a different bar.  The off-grid
bar is silently dropped, never snapped or interpolated. -/
theorem C5_offgrid_dropped (tz : Int → Int) (g : Int) (input : List Bar)
    (rows : List Row) (b : NBar) (hg : 0 < g)
    (h : convert_csv_to_excel_ny_time tz g input = .ok rows)
    (hb : b ∈ normalizeBars input)
    (hoff : (b.t - minTime (normalizeBars input)) % (60 * g) ≠ 0) :
    (∀ r ∈ rows, r.slot ≠ b.t) ∧
    (∀ r ∈ rows,
      (r.OPEN = "GAP" ∧ r.HIGH = "GAP" ∧ r.LOW = "GAP" ∧ r.CLOSE = "GAP") ∨
      (∃ b2, b2 ∈ normalizeBars input ∧ b2.t = r.slot ∧ b2 ≠ b ∧
        r.OPEN = format_price_or_gap (fillGap b2.«open») ∧
        r.HIGH = format_price_or_gap (fillGap b2.high) ∧
        r.LOW = format_price_or_gap (fillGap b2.low) ∧
        r.CLOSE = format_price_or_gap (fillGap b2.close))) := by
  obtain ⟨hne, hnd, hrows⟩ := (convert_ok_iff tz g input rows).mp h
  have hsne : sortBars (normalizeBars input) ≠ [] :=
    fun e => hne ((sortBars_eq_nil_iff _).mp e)
  have hmin : minTime (sortBars (normalizeBars input)) = minTime (normalizeBars input) :=
    minTime_perm _ _ (sortBars_perm _) hsne
  have hmax : maxTime (sortBars (normalizeBars input)) = maxTime (normalizeBars input) :=
    maxTime_perm _ _ (sortBars_perm _) hsne
  have hstep : (0 : Int) < 60 * g := by omega
  have hle : minTime (normalizeBars input) ≤ maxTime (normalizeBars input) :=
    minTime_le_maxTime _ hne
  have hslot_ne : ∀ r ∈ rows, r.slot ≠ b.t := by
    intro r hr
    obtain ⟨s, hsmem, hrk⟩ := convert_ok_rows tz g input rows h r hr
    rw [hmin, hmax] at hsmem
    have hmem := (gridSlots_mem_iff _ _ _ hstep hle s).mp hsmem
    rw [hrk, mkRow_slot]
    intro he
    rw [he] at hmem
    exact hoff hmem.2.2
  refine ⟨hslot_ne, ?_⟩
  intro r hr
  rcases rows_match_or_gap tz g input rows h r hr with ⟨b2, hb2, hbt, h1, h2, h3, h4⟩ | ⟨-, h1, h2, h3, h4⟩
  · right
    refine ⟨b2, hb2, hbt, ?_, h1, h2, h3, h4⟩
    intro he
    subst he
    exact hslot_ne r hr hbt.symm
  · left
    exact ⟨h1, h2, h3, h4⟩

/-- Input for the C5 witness: a bar on the anchor and one 1000 seconds later,
which is not on the 900-second grid. -/
def c5Input : List Bar :=
  [⟨some 0, .num 1, .num 1, .num 1, .num 1⟩, ⟨some 1000, .num 2, .num 2, .num 2, .num 2⟩]

/-- Output rows for the C5 witness: the off-grid bar appears nowhere. -/
def c5Rows : List Row :=
  [⟨0, "31/12/1969", "19:00:00", "1,000", "1,000", "1,000", "1,000"⟩,
   ⟨900, "31/12/1969", "19:15:00", "GAP", "GAP", "GAP", "GAP"⟩]

/-- The off-grid bar of the C5 witness. -/
def c5Bar : NBar := ⟨1000, .num 2, .num 2, .num 2, .num 2⟩

theorem C5_offgrid_dropped_witness :
    (0 : Int) < 15 ∧
    convert_csv_to_excel_ny_time nyOffset 15 c5Input = .ok c5Rows ∧
    c5Bar ∈ normalizeBars c5Input ∧
    (c5Bar.t - minTime (normalizeBars c5Input)) % (60 * 15) ≠ 0 ∧
    ((∀ r ∈ c5Rows, r.slot ≠ c5Bar.t) ∧
     (∀ r ∈ c5Rows,
       (r.OPEN = "GAP" ∧ r.HIGH = "GAP" ∧ r.LOW = "GAP" ∧ r.CLOSE = "GAP") ∨
       (∃ b2, b2 ∈ normalizeBars c5Input ∧ b2.t = r.slot ∧ b2 ≠ c5Bar ∧
         r.OPEN = format_price_or_gap (fillGap b2.«open») ∧
         r.HIGH = format_price_or_gap (fillGap b2.high) ∧
         r.LOW = format_price_or_gap (fillGap b2.low) ∧
         r.CLOSE = format_price_or_gap (fillGap b2.close)))) := by
  have h : convert_csv_to_excel_ny_time nyOffset 15 c5Input = .ok c5Rows := by
    with_unfolding_all decide
  exact ⟨by norm_num, h, by decide, by decide,
    C5_offgrid_dropped nyOffset 15 c5Input c5Rows c5Bar (by norm_num) h
      (by decide) (by decide)⟩

/-- C7: the column-assembly stage (rename, synthesize missing final columns
null-filled, select, format — price_data_parser.py lines 158-187) never
fails, always yields exactly the six columns `Date, Time, OPEN, HIGH, LOW,
CLOSE` in that order regardless of any extra columns in the row, and renders
each of the four price columns that upstream stages never populated as the
formatted null, the empty string. -/
theorem C7_column_assembly (r : Rec) :
    ((assembleRow r).map fun out => out.map Prod.fst) =
      some FINAL_EXCEL_ORDERED_COLUMNS ∧
    (∀ c ∈ priceCols, (renameOHLC r).lookup c = none →
      (assembleRow r).map (fun out => out.lookup c) =
        some (some (CellValue.str ""))) := by
  set r1 := renameOHLC r with hr1
  set r2 := addMissingFinal FINAL_EXCEL_ORDERED_COLUMNS r1 with hr2
  have hv : ∀ c ∈ FINAL_EXCEL_ORDERED_COLUMNS,
      r2.lookup c = some ((r2.lookup c).getD CellValue.nan) := by
    intro c hc
    cases hc1 : r1.lookup c with
    | some x =>
      rw [hr2, addMissingFinal_keeps _ _ _ _ hc1]
      rfl
    | none =>
      rw [hr2, addMissingFinal_fills _ c hc r1 hc1]
      rfl
  have hsel : selectCols FINAL_EXCEL_ORDERED_COLUMNS r2 =
      some (FINAL_EXCEL_ORDERED_COLUMNS.map
        fun c => (c, (r2.lookup c).getD CellValue.nan)) :=
    selectCols_eq_map _ _ _ hv
  have hasm : assembleRow r = some (FINAL_EXCEL_ORDERED_COLUMNS.map
      fun c => (c, if c ∈ priceCols
        then CellValue.str (format_price_or_gap ((r2.lookup c).getD CellValue.nan))
        else (r2.lookup c).getD CellValue.nan)) := by
    unfold assembleRow
    rw [← hr1, ← hr2, hsel, Option.map_some', formatPriceCells_map]
  constructor
  · rw [hasm, Option.map_some', List.map_map]
    have he : (Prod.fst ∘ fun c => ((c : String), if c ∈ priceCols
        then CellValue.str (format_price_or_gap ((r2.lookup c).getD CellValue.nan))
        else (r2.lookup c).getD CellValue.nan)) = id := funext fun c => rfl
    rw [he, List.map_id]
  · intro c hc hnone
    have hcf : c ∈ FINAL_EXCEL_ORDERED_COLUMNS := by
      simp only [priceCols, List.mem_cons, List.not_mem_nil, or_false] at hc
      unfold FINAL_EXCEL_ORDERED_COLUMNS
      rcases hc with h | h | h | h <;> subst h <;> simp
    have hfill : r2.lookup c = some CellValue.nan := by
      rw [hr2]
      exact addMissingFinal_fills _ c hcf r1 hnone
    rw [hasm, Option.map_some', lookup_map_pair _ _ c hcf, hfill]
    simp only [Option.getD_some, if_pos hc]
    rfl

/-- Row for the C7 witness: carries an extra column, lacks `high`, `low` and
`close`. -/
def c7Row : Rec :=
  [("time", .num 5), ("Date", .str "x"), ("Time", .str "y"),
   ("open", .num 2), ("extra", .num 9)]

theorem C7_column_assembly_witness :
    ((assembleRow c7Row).map fun out => out.map Prod.fst) =
      some FINAL_EXCEL_ORDERED_COLUMNS ∧
    ("HIGH" : String) ∈ priceCols ∧
    (renameOHLC c7Row).lookup "HIGH" = none ∧
    (assembleRow c7Row).map (fun out => out.lookup "HIGH") =
      some (some (CellValue.str "")) :=
  ⟨(C7_column_assembly c7Row).1, by decide, by decide,
    (C7_column_assembly c7Row).2 "HIGH" (by decide) (by decide)⟩

/-- C10: every row of a successful run — synthesized gap rows included —
carries Date and Time strings rendered from that row's own grid-slot local
instant: Date is the `DD/MM/YYYY` rendering and Time the 24-hour `HH:MM:SS`
rendering of the slot, both non-empty; Time is always exactly 8 characters,
and Date exactly 10 whenever the slot's civil year has four digits. -/
theorem C10_date_time_rows (tz : Int → Int) (g : Int) (input : List Bar)
    (rows : List Row) (h : convert_csv_to_excel_ny_time tz g input = .ok rows) :
    ∀ r ∈ rows,
      r.Date = dateString tz r.slot ∧
      r.Time = timeString tz r.slot ∧
      r.Date ≠ "" ∧ r.Time ≠ "" ∧
      (r.Time).length = 8 ∧
      (1000 ≤ (localCivil tz r.slot).1 → (localCivil tz r.slot).1 < 10000 →
        (r.Date).length = 10) := by
  intro r hr
  obtain ⟨s, -, hrk⟩ := convert_ok_rows tz g input rows h r hr
  subst hrk
  rw [mkRow_slot, mkRow_Date, mkRow_Time]
  exact ⟨rfl, rfl, dateString_ne_empty tz s, timeString_ne_empty tz s,
    timeString_length tz s, fun h1 h2 => dateString_length tz s h1 h2⟩

/-- Input for the C10 witness: a single on-grid bar. -/
def c10Input : List Bar := [⟨some 0, .num 1, .num 1, .num 1, .num 1⟩]

/-- Output row of the C10 witness. -/
def c10Row : Row := ⟨0, "31/12/1969", "19:00:00", "1,000", "1,000", "1,000", "1,000"⟩

theorem C10_date_time_rows_witness :
    convert_csv_to_excel_ny_time nyOffset 15 c10Input = .ok [c10Row] ∧
    c10Row ∈ [c10Row] ∧
    (c10Row.Date = dateString nyOffset c10Row.slot ∧
     c10Row.Time = timeString nyOffset c10Row.slot ∧
     c10Row.Date ≠ "" ∧ c10Row.Time ≠ "" ∧
     (c10Row.Time).length = 8 ∧
     (1000 ≤ (localCivil nyOffset c10Row.slot).1 →
       (localCivil nyOffset c10Row.slot).1 < 10000 →
       (c10Row.Date).length = 10)) := by
  have h : convert_csv_to_excel_ny_time nyOffset 15 c10Input = .ok [c10Row] := by
    with_unfolding_all decide
  exact ⟨h, by decide, C10_date_time_rows nyOffset 15 c10Input [c10Row] h c10Row (by decide)⟩
